import Mathlib

/-!
# Verification of the ibc-15kv-reporting document-assembly pipeline

Shallow embedding of the core functions of `report.py` and `sheets.py`
(the filename sanitiser, the cell-margin computation of the image gallery,
the grid construction, the asset resolver, the placeholder sanitiser, the
row normalisation, and the archive-writing control flow of
`generate_reports`), together with theorems settling the specification
claims about them.

Conventions: Python strings are modelled as `List Char`, Python integers as
`Int`, Python byte data as `List Nat`, Python floats as `Rat` (the spacing
arithmetic only halves and scales, which is exact), and a fallible value as
`Except`/`Option`.  Filesystem existence is an explicit parameter
(`AssetDir → List Char → Bool`).
-/

namespace IbcReport

/-! ## Rounding and unit conversion (`report.py`, `_mm_to_twips`)

Python's built-in `round` rounds half to even. -/

/-- Python's `round(x)` on an exact rational: round half to even. -/
def pyRound (q : ℚ) : ℤ :=
  if q - ⌊q⌋ < 1/2 then ⌊q⌋
  else if 1/2 < q - ⌊q⌋ then ⌊q⌋ + 1
  else if ⌊q⌋ % 2 = 0 then ⌊q⌋ else ⌊q⌋ + 1

/-- `_mm_to_twips(mm) = max(0, int(round(mm * 1440 / 25.4)))`. -/
def mm_to_twips (mm : ℚ) : ℤ :=
  max 0 (pyRound (mm * 1440 / (254/10)))

/-! ## Cell margins (`report.py`, `_apply_cell_spacing`) -/

/-- The four per-side margins of a gallery cell, in millimetres. -/
structure Margins where
  top : ℚ
  bottom : ℚ
  left : ℚ
  right : ℚ
  deriving Repr, DecidableEq

/-- `_apply_cell_spacing` (margin computation in mm): clamp the spacing at 0;
a single-column row gets the full spacing on both sides; otherwise the outer
edges get the full spacing and interior-facing edges half of it.  Top and
bottom always get the full spacing. -/
def apply_cell_spacing (spacing_mm : ℚ) (column_index total_columns : ℕ) : Margins :=
  let s := max 0 spacing_mm
  if total_columns ≤ 1 then
    { top := s, bottom := s, left := s, right := s }
  else
    let inner_gap := s / 2
    { top := s
      bottom := s
      left := if column_index = 0 then s else inner_gap
      right := if column_index = total_columns - 1 then s else inner_gap }

/-- The four per-side margins as stored in the document by `_set_cell_margin`
(twips, via `_mm_to_twips`). -/
structure MarginsTwips where
  top : ℤ
  bottom : ℤ
  left : ℤ
  right : ℤ
  deriving Repr, DecidableEq

/-- The margins `_apply_cell_spacing` writes into the cell, in twips. -/
def apply_cell_spacing_twips (spacing_mm : ℚ) (column_index total_columns : ℕ) :
    MarginsTwips :=
  let m := apply_cell_spacing spacing_mm column_index total_columns
  { top := mm_to_twips m.top
    bottom := mm_to_twips m.bottom
    left := mm_to_twips m.left
    right := mm_to_twips m.right }

theorem pyRound_nonneg {q : ℚ} (hq : 0 ≤ q) : 0 ≤ pyRound q := by
  have hf : (0 : ℤ) ≤ ⌊q⌋ := Int.floor_nonneg.mpr hq
  unfold pyRound
  split
  · exact hf
  · split
    · omega
    · split
      · exact hf
      · omega

theorem mm_to_twips_eq_pyRound {mm : ℚ} (h : 0 ≤ mm) :
    mm_to_twips mm = pyRound (mm * 1440 / (254/10)) := by
  have hq : (0:ℚ) ≤ mm * 1440 / (254/10) := by positivity
  exact max_eq_right (pyRound_nonneg hq)

/-- For a non-negative spacing the `max(0.0, ...)` clamp of
`_apply_cell_spacing` is the identity, giving this closed form. -/
theorem apply_cell_spacing_eq (s : ℚ) (hs : 0 ≤ s) (c T : ℕ) :
    apply_cell_spacing s c T =
      if T ≤ 1 then { top := s, bottom := s, left := s, right := s }
      else { top := s, bottom := s,
             left := if c = 0 then s else s / 2,
             right := if c = T - 1 then s else s / 2 } := by
  simp only [apply_cell_spacing, max_eq_right hs]

/-! ## Effective images-per-row (`report.py`, `generate_reports`, lines 169-173) -/

/-- `images_per_row = max(1, int(img_per_row))`; the `TypeError`/`ValueError`
raised by `int()` on a non-convertible value (modelled by `none`) is caught and
replaced by 1. -/
def images_per_row_eff : Option ℤ → ℤ
  | some n => max 1 n
  | none => 1

/-- `table_columns = max(2, images_per_row)`. -/
def table_columns_eff (v : Option ℤ) : ℤ :=
  max 2 (images_per_row_eff v)

/-- C2: for every spacing `s ≥ 0`, column index `c` and total column count `T`,
`_apply_cell_spacing` gives top and bottom margins equal to `s`; with `T ≤ 1`
left and right both equal `s`; otherwise the first column's left margin and the
last column's right margin equal the full `s` and every interior-facing edge
equals `s / 2`; and each margin is stored in the cell as
`round(mm * 1440 / 25.4)` twips. -/
theorem C2_cell_margins (s : ℚ) (hs : 0 ≤ s) (c T : ℕ) :
    (apply_cell_spacing s c T).top = s ∧
    (apply_cell_spacing s c T).bottom = s ∧
    (T ≤ 1 → (apply_cell_spacing s c T).left = s ∧ (apply_cell_spacing s c T).right = s) ∧
    (2 ≤ T →
      (c = 0 → (apply_cell_spacing s c T).left = s) ∧
      (c = T - 1 → (apply_cell_spacing s c T).right = s) ∧
      (c ≠ 0 → (apply_cell_spacing s c T).left = s / 2) ∧
      (c ≠ T - 1 → (apply_cell_spacing s c T).right = s / 2)) ∧
    (apply_cell_spacing_twips s c T).top
        = pyRound ((apply_cell_spacing s c T).top * 1440 / (254/10)) ∧
    (apply_cell_spacing_twips s c T).bottom
        = pyRound ((apply_cell_spacing s c T).bottom * 1440 / (254/10)) ∧
    (apply_cell_spacing_twips s c T).left
        = pyRound ((apply_cell_spacing s c T).left * 1440 / (254/10)) ∧
    (apply_cell_spacing_twips s c T).right
        = pyRound ((apply_cell_spacing s c T).right * 1440 / (254/10)) := by
  have h2 : (0:ℚ) ≤ s / 2 := by positivity
  have hl : 0 ≤ (apply_cell_spacing s c T).left := by
    rw [apply_cell_spacing_eq s hs]
    split
    · exact hs
    · show (0:ℚ) ≤ if c = 0 then s else s / 2
      split
      · exact hs
      · exact h2
  have hr : 0 ≤ (apply_cell_spacing s c T).right := by
    rw [apply_cell_spacing_eq s hs]
    split
    · exact hs
    · show (0:ℚ) ≤ if c = T - 1 then s else s / 2
      split
      · exact hs
      · exact h2
  have ht : (apply_cell_spacing s c T).top = s := by
    rw [apply_cell_spacing_eq s hs]; split <;> rfl
  have hb : (apply_cell_spacing s c T).bottom = s := by
    rw [apply_cell_spacing_eq s hs]; split <;> rfl
  refine ⟨ht, hb, ?_, ?_, ?_, ?_, ?_, ?_⟩
  · intro hT
    rw [apply_cell_spacing_eq s hs, if_pos hT]
    exact ⟨rfl, rfl⟩
  · intro hT
    have hT' : ¬ T ≤ 1 := by omega
    rw [apply_cell_spacing_eq s hs, if_neg hT']
    refine ⟨fun h0 => by simp [h0], fun h1 => by simp [h1], fun h0 => by simp [h0],
      fun h1 => by simp [h1]⟩
  · show mm_to_twips (apply_cell_spacing s c T).top = _
    rw [mm_to_twips_eq_pyRound (hs.trans_eq ht.symm)]
  · show mm_to_twips (apply_cell_spacing s c T).bottom = _
    rw [mm_to_twips_eq_pyRound (hs.trans_eq hb.symm)]
  · show mm_to_twips (apply_cell_spacing s c T).left = _
    rw [mm_to_twips_eq_pyRound hl]
  · show mm_to_twips (apply_cell_spacing s c T).right = _
    rw [mm_to_twips_eq_pyRound hr]

/-- Witness for C2 at `s = 5`, `c = 0`, `T = 2`. -/
theorem C2_cell_margins_witness :
    (0:ℚ) ≤ 5 ∧
    (apply_cell_spacing 5 0 2).left = 5 ∧
    (apply_cell_spacing 5 0 2).right = 5 / 2 ∧
    (apply_cell_spacing_twips 5 0 2).right = pyRound (5 / 2 * 1440 / (254/10)) := by
  have h := C2_cell_margins 5 (by norm_num) 0 2
  have hout := (h.2.2.2.1 (by norm_num)).1 rfl
  have hin : (apply_cell_spacing 5 0 2).right = 5 / 2 :=
    (h.2.2.2.1 (by norm_num)).2.2.2 (by norm_num)
  refine ⟨by norm_num, hout, hin, ?_⟩
  have := h.2.2.2.2.2.2.2
  rwa [hin] at this

/-- C3 counterexample: at `s = 5` with two columns, the right margin of the
left-hand cell is `5 / 2`, not the full `5` the claim states. -/
theorem C3_counterexample :
    (apply_cell_spacing 5 0 2).right = 5 / 2 ∧ ((5:ℚ) / 2 ≠ 5) := by
  constructor
  · norm_num [apply_cell_spacing]
  · norm_num

/-- C3 (amended): for `s ≥ 0` and two images per row (`table_columns = 2`):
the left-hand cell keeps the full outer margin `s` on its left and the inner
half-gap `s / 2` on its right; symmetrically the right-hand cell gets `s / 2`
on its left and `s` on its right, the halves being stored rounded to twips. -/
theorem C3_two_per_row_margins (s : ℚ) (hs : 0 ≤ s) :
    table_columns_eff (some 2) = 2 ∧
    (apply_cell_spacing s 0 2).left = s ∧
    (apply_cell_spacing s 0 2).right = s / 2 ∧
    (apply_cell_spacing s 1 2).left = s / 2 ∧
    (apply_cell_spacing s 1 2).right = s ∧
    (apply_cell_spacing_twips s 1 2).left = mm_to_twips (s / 2) ∧
    (apply_cell_spacing_twips s 0 2).right = mm_to_twips (s / 2) := by
  have e0 := apply_cell_spacing_eq s hs 0 2
  have e1 := apply_cell_spacing_eq s hs 1 2
  norm_num at e0 e1
  refine ⟨rfl, ?_, ?_, ?_, ?_, ?_, ?_⟩
  · rw [e0]
  · rw [e0]
  · rw [e1]
  · rw [e1]
  · show mm_to_twips (apply_cell_spacing s 1 2).left = _
    rw [e1]
  · show mm_to_twips (apply_cell_spacing s 0 2).right = _
    rw [e0]

/-- Witness for the amended C3 at `s = 5`. -/
theorem C3_two_per_row_margins_witness :
    (0:ℚ) ≤ 5 ∧ (apply_cell_spacing 5 1 2).left = 5 / 2 ∧
      (apply_cell_spacing 5 1 2).right = 5 := by
  have h := C3_two_per_row_margins 5 (by norm_num)
  exact ⟨by norm_num, h.2.2.2.1, h.2.2.2.2.1⟩

/-! ## Gallery grid construction (`report.py`, `generate_reports`, lines 218-232)

The image loop accumulates `row_cells`; whenever `(idx + 1) % images_per_row
== 0` or the last image is reached, it adds a table with one row of
`table_columns` cells, populating cell `col_idx` only when
`col_idx < len(row_cells)`. -/

/-- One grid row of `table_columns` cells: cell `c` holds `row_cells[c]` when
populated, `none` when it is a blank trailing cell. -/
def tableRow (cols : ℕ) (row_cells : List α) : List (Option α) :=
  (List.range cols).map fun c => row_cells[c]?

/-- The image loop of `generate_reports`, carrying the accumulated
`row_cells` and the current index `idx`; `total` is `len(image_bytes)`. -/
def buildTablesAux (ipr cols total : ℕ) :
    List α → List α → ℕ → List (List (Option α))
  | _, [], _ => []
  | acc, d :: rest, idx =>
    if (idx + 1) % ipr = 0 ∨ idx = total - 1 then
      tableRow cols (acc ++ [d]) :: buildTablesAux ipr cols total [] rest (idx + 1)
    else
      buildTablesAux ipr cols total (acc ++ [d]) rest (idx + 1)

/-- The full gallery grid built from an image list. -/
def buildTables (ipr cols : ℕ) (images : List α) : List (List (Option α)) :=
  buildTablesAux ipr cols images.length [] images 0

theorem length_mem_buildTablesAux {α : Type} (ipr cols total : ℕ) :
    ∀ (l acc : List α) (idx : ℕ) (t : List (Option α)),
      t ∈ buildTablesAux ipr cols total acc l idx → t.length = cols := by
  intro l
  induction l with
  | nil => intro acc idx t ht; simp [buildTablesAux] at ht
  | cons d rest ih =>
    intro acc idx t ht
    simp only [buildTablesAux] at ht
    split at ht
    · rcases List.mem_cons.mp ht with rfl | h
      · simp [tableRow]
      · exact ih _ _ _ h
    · exact ih _ _ _ ht

/-- C6: with `img_per_row` converting to the integer `n`, every table of the
gallery grid is created with exactly `max(n, 2)` columns — the effective
column count `max(2, max(1, n))` equals `max(n, 2)` for every `n`, so a
minimum of two columns holds even for single-column requests — and every grid
row has this same column count even when the final group of images is
smaller. -/
theorem C6_gallery_columns {α : Type} (n : ℤ) (images : List α)
    (t : List (Option α))
    (ht : t ∈ buildTables (images_per_row_eff (some n)).toNat
      (table_columns_eff (some n)).toNat images) :
    t.length = (max n 2).toNat := by
  have h := length_mem_buildTablesAux (images_per_row_eff (some n)).toNat
    (table_columns_eff (some n)).toNat images.length images [] 0 t ht
  rw [h]
  simp only [table_columns_eff, images_per_row_eff]
  omega

/-- Witness for C6: `n = 1`, three images, first emitted table. -/
theorem C6_gallery_columns_witness :
    ([some 10, none] : List (Option ℕ)) ∈
        buildTables (images_per_row_eff (some 1)).toNat
          (table_columns_eff (some 1)).toNat [10, 20, 30] ∧
      ([some 10, none] : List (Option ℕ)).length = ((max 1 2 : ℤ)).toNat := by
  have hmem : ([some 10, none] : List (Option ℕ)) ∈
      buildTables (images_per_row_eff (some 1)).toNat
        (table_columns_eff (some 1)).toNat [10, 20, 30] := by
    simp [buildTables, buildTablesAux, tableRow, images_per_row_eff,
      table_columns_eff, List.range_succ]
  exact ⟨hmem, C6_gallery_columns 1 [10, 20, 30] [some 10, none] hmem⟩

/-- C10: the effective images-per-row of `generate_reports` is always at
least 1 (so its `Nat` value, the divisor of the `(idx + 1) %
images_per_row` grouping test in `buildTables`, is never zero), and on any
value converting to the integer `n` it equals `max 1 n`. -/
theorem C10_images_per_row_positive (v : Option ℤ) :
    1 ≤ images_per_row_eff v ∧ (images_per_row_eff v).toNat ≠ 0 ∧
      (∀ n : ℤ, v = some n → images_per_row_eff v = max 1 n) := by
  rcases v with _ | n
  · refine ⟨le_refl 1, by simp [images_per_row_eff], ?_⟩
    intro n hn; cases hn
  · refine ⟨le_max_left 1 n, ?_, ?_⟩
    · simp only [images_per_row_eff]; omega
    · intro m hm
      cases hm
      rfl

/-- Witness for C10 at the non-convertible value (`none`) and at `-3`. -/
theorem C10_images_per_row_positive_witness :
    1 ≤ images_per_row_eff none ∧ (images_per_row_eff (some (-3))).toNat ≠ 0 ∧
      images_per_row_eff (some (-3)) = max 1 (-3) := by
  refine ⟨(C10_images_per_row_positive none).1,
    (C10_images_per_row_positive (some (-3))).2.1,
    (C10_images_per_row_positive (some (-3))).2.2 (-3) rfl⟩

/-! ## The archive-writing loop of `generate_reports` (`report.py`, 177-319)

Control-flow model: rows are processed strictly in input order.  `render`
models the fallible per-row body (template load, context build,
`tpl.render`); no exception handler exists inside the loop, so a per-row
failure aborts the whole call.  On success the loop moves to the next row
WITHOUT writing any entry into the archive: the source renders `tpl` but
contains no `tpl.save`/`zipf.writestr`, and its `used_names` dictionary is
never touched.  The `ok` payload is the list of archive entry names. -/

def generate_reports_run (render : List String → Except String Unit) :
    List (List String) → Except String (List String)
  | [] => Except.ok []
  | row :: rest =>
    match render row with
    | Except.error e => Except.error e
    | Except.ok _ =>
      match generate_reports_run render rest with
      | Except.error e => Except.error e
      | Except.ok entries => Except.ok entries

/-- The row used by the repository's own test
`test_generate_reports_returns_zip`. -/
def siteARow : List String := "2025-08-06" :: "Site A" :: List.replicate 12 ""

/-- C1 (code bug): on the one-row batch of the repository's own test, with
every row rendering successfully, `generate_reports` returns an archive with
zero entries, not one entry per input row — the loop never writes a document
into the zip. -/
theorem C1_no_entries_written :
    generate_reports_run (fun _ => Except.ok ()) [siteARow] = Except.ok [] ∧
      [siteARow].length = 1 ∧ ([] : List String).length ≠ [siteARow].length := by
  exact ⟨rfl, rfl, by decide⟩

/-- A per-row body that fails on the first row (`[]`) only. -/
def renderFailingFirst : List String → Except String Unit :=
  fun row => if row.length = 0 then Except.error "image failed to embed" else Except.ok ()

/-- C4 counterexample: a failure confined to the first row makes the whole
`generate_reports` call raise — the second row is never rendered or archived,
so the batch does not continue. -/
theorem C4_counterexample :
    generate_reports_run renderFailingFirst [[], ["Site B"]]
      = Except.error "image failed to embed" := rfl

/-- C4 (amended): a failing row aborts the whole batch: whenever any row's
rendering fails, `generate_reports` propagates that exception and returns no
archive at all (there is no per-row exception handler; only the
`img_per_row` conversion, scratch-file removal and column-width assignment
are guarded, and missing placeholders / signature assets are mere
warnings). -/
theorem C4_per_row_failure_aborts (render : List String → Except String Unit)
    (rows : List (List String)) (h : ∃ r ∈ rows, ∃ e, render r = Except.error e) :
    ∃ e, generate_reports_run render rows = Except.error e := by
  induction rows with
  | nil => simp at h
  | cons a rs ih =>
    obtain ⟨r, hr, e, he⟩ := h
    cases hra : render a with
    | error e' => exact ⟨e', by simp [generate_reports_run, hra]⟩
    | ok u =>
      rcases List.mem_cons.mp hr with rfl | hr'
      · rw [hra] at he; cases he
      · obtain ⟨e'', he''⟩ := ih ⟨r, hr', e, he⟩
        refine ⟨e'', ?_⟩
        simp [generate_reports_run, hra, he'']

/-- Witness for the amended C4. -/
theorem C4_per_row_failure_aborts_witness :
    ∃ e, generate_reports_run renderFailingFirst [[], ["Site B"]]
      = Except.error e :=
  C4_per_row_failure_aborts renderFailingFirst [[], ["Site B"]]
    ⟨[], by simp, "image failed to embed", rfl⟩

/-! ## Row normalisation (`sheets.py` lines 53-55, `report.py` line 196) -/

/-- The padding of `get_sheet_data`:
`row + [""] * max(0, expected_cols - len(row))` (`Nat` subtraction models the
`max(0, ...)`).  It pads short rows but never truncates long ones. -/
def pad_row_sheets (expected : ℕ) (row : List String) : List String :=
  row ++ List.replicate (expected - row.length) ""

/-- `get_sheet_data`'s row normalisation with its `expected_cols = 14`. -/
def get_sheet_data_pad (rows : List (List String)) : List (List String) :=
  rows.map (pad_row_sheets 14)

/-- The destructuring `(row + [""] * 14)[:14]` at the top of the row loop of
`generate_reports`: pads and truncates to exactly 14 fields. -/
def destructure_row14 (row : List String) : List String :=
  (row ++ List.replicate 14 "").take 14

/-- C5 counterexample: a 15-column raw row passes through `get_sheet_data`'s
normalisation with its 15 columns intact — it is not truncated to 14. -/
theorem C5_counterexample :
    (pad_row_sheets 14 (List.replicate 15 "x")).length = 15 ∧ (15 : ℕ) ≠ 14 := by
  constructor
  · rfl
  · decide

/-- C5 (amended): `get_sheet_data`'s normalisation pads a row to length
`max(len(row), 14)` — rows longer than 14 keep their full length — while the
row destructuring inside `generate_reports` yields exactly 14 fields for
every row; in particular every normalised sheet row has at least 14
fields. -/
theorem C5_row_lengths (rows : List (List String)) (row : List String) :
    (pad_row_sheets 14 row).length = max row.length 14 ∧
    (destructure_row14 row).length = 14 ∧
    (∀ r ∈ get_sheet_data_pad rows, 14 ≤ r.length) := by
  refine ⟨?_, ?_, ?_⟩
  · simp only [pad_row_sheets, List.length_append, List.length_replicate]
    omega
  · simp only [destructure_row14, List.length_take, List.length_append,
      List.length_replicate]
    omega
  · intro r hr
    obtain ⟨r0, _, rfl⟩ := List.mem_map.mp hr
    simp only [pad_row_sheets, List.length_append, List.length_replicate]
    omega

/-- Witness for the amended C5. -/
theorem C5_row_lengths_witness :
    (pad_row_sheets 14 ["a"]).length = max (["a"] : List String).length 14 ∧
      14 ≤ (pad_row_sheets 14 ["a"]).length := by
  have h := C5_row_lengths [["a"]] ["a"]
  exact ⟨h.1, h.2.2 _ (by simp [get_sheet_data_pad])⟩

/-! ## Asset resolution (`report.py`, `resolve_asset`, lines 73-89)

`p = (BASE_DIR / name).resolve()`; if `p.parent != BASE_DIR` only that parent
directory is searched, otherwise the `signatures` subdirectory and then the
base directory; within each directory the stem is probed bare and with
`.png`, `.jpg`, `.jpeg`, `.webp` in that order.  The filesystem is an
explicit existence oracle; a name is given pre-parsed as the relative
directory components and the final component of the resolved path, with
`none` standing for a falsy Python `name` (`None` or the empty string). -/

/-- A directory probed by `resolve_asset`: the module's base directory, its
`signatures` subdirectory, or the distinct parent directory of the name. -/
inductive AssetDir
  | base
  | signatures
  | other (dirs : List String)
  deriving Repr, DecidableEq

/-- The extension probe order of `resolve_asset` (`exts`). -/
def EXTS : List String := ["", ".png", ".jpg", ".jpeg", ".webp"]

/-- `p.with_suffix("").name` of `pathlib`: the final component with its last
extension stripped — `name[:i]` for the last dot index `i` whenever
`0 < i < len(name) - 1`, else the component unchanged. -/
def stemOf (nm : List Char) : List Char :=
  match ((List.range nm.length).filter fun i => nm[i]? == some '.').getLast? with
  | some i => if 0 < i ∧ i < nm.length - 1 then nm.take i else nm
  | none => nm

/-- `search_dirs`: the directory order of `resolve_asset`. -/
def searchDirs (dirs : List String) : List AssetDir :=
  if dirs.isEmpty then [AssetDir.signatures, AssetDir.base] else [AssetDir.other dirs]

/-- The inner loop of `resolve_asset` over the extensions of one directory. -/
def findExt (fs : AssetDir → List Char → Bool) (d : AssetDir) (stem : List Char) :
    List String → Option (AssetDir × List Char)
  | [] => none
  | e :: es =>
    if fs d (stem ++ e.data) then some (d, stem ++ e.data) else findExt fs d stem es

/-- The outer loop of `resolve_asset` over the search directories. -/
def findDirs (fs : AssetDir → List Char → Bool) (stem : List Char) :
    List AssetDir → Option (AssetDir × List Char)
  | [] => none
  | d :: ds =>
    match findExt fs d stem EXTS with
    | some r => some r
    | none => findDirs fs stem ds

/-- `resolve_asset`: `none` for a falsy name, otherwise the nested search
returning the first existing candidate, `none` when no candidate exists. -/
def resolve_asset (fs : AssetDir → List Char → Bool) :
    Option (List String × List Char) → Option (AssetDir × List Char)
  | none => none
  | some (dirs, file) => findDirs fs (stemOf file) (searchDirs dirs)

/-- The candidate sequence in the spec's words: for each search directory in
order, the stem bare and then with each extension in order. -/
def resolve_asset_spec_candidates (dirs : List String) (file : List Char) :
    List (AssetDir × List Char) :=
  (searchDirs dirs).flatMap fun d => EXTS.map fun e => (d, stemOf file ++ e.data)

/-- A filesystem holding exactly `signatures/alexis_ivugiza.jpg`. -/
def exampleFs : AssetDir → List Char → Bool := fun d f =>
  decide (d = AssetDir.signatures ∧ f = "alexis_ivugiza.jpg".data)

theorem findExt_eq (fs : AssetDir → List Char → Bool) (d : AssetDir)
    (stem : List Char) :
    ∀ es : List String,
      findExt fs d stem es
        = (es.map fun e => (d, stem ++ e.data)).find? fun c => fs c.1 c.2 := by
  intro es
  induction es with
  | nil => rfl
  | cons e es ih =>
    by_cases hc : fs d (stem ++ e.data)
    · simp [findExt, List.find?_cons, hc]
    · simp [findExt, List.find?_cons, hc, ih]

theorem findDirs_eq (fs : AssetDir → List Char → Bool) (stem : List Char) :
    ∀ ds : List AssetDir,
      findDirs fs stem ds
        = (ds.flatMap fun d => EXTS.map fun e => (d, stem ++ e.data)).find?
            fun c => fs c.1 c.2 := by
  intro ds
  induction ds with
  | nil => rfl
  | cons d ds ih =>
    simp only [findDirs, List.flatMap_cons, List.find?_append, findExt_eq, ih]
    cases (EXTS.map fun e => (d, stem ++ e.data)).find? fun c => fs c.1 c.2 <;> rfl

/-- C7: `resolve_asset` returns `none` on a falsy name; otherwise it returns
the first existing candidate of the spec's search sequence — the name's own
directory when distinct from the base directory, else `signatures` followed
by the base directory, each probed with the bare stem and then `.png`,
`.jpg`, `.jpeg`, `.webp` — and `none` when no candidate exists.  In
particular, `resolve_asset "alexis_ivugiza"` finds
`signatures/alexis_ivugiza.jpg` when that file exists, and returns `none` on
an empty filesystem. -/
theorem C7_resolve_asset (fs : AssetDir → List Char → Bool)
    (dirs : List String) (file : List Char) :
    resolve_asset fs none = none ∧
    resolve_asset fs (some (dirs, file))
      = (resolve_asset_spec_candidates dirs file).find? (fun c => fs c.1 c.2) ∧
    resolve_asset exampleFs (some ([], "alexis_ivugiza".data))
      = some (AssetDir.signatures, "alexis_ivugiza.jpg".data) ∧
    resolve_asset (fun _ _ => false) (some ([], "alexis_ivugiza".data)) = none := by
  refine ⟨rfl, ?_, by decide, by decide⟩
  simp only [resolve_asset, resolve_asset_spec_candidates, findDirs_eq]

/-! ## Filename sanitisation (`report.py`, `safe_filename`, lines 43-50)

`re.sub(r'[\\/:*?"<>|]+', "-", s)`, then `re.sub(r"\s+", " ", s)`, then
`.strip(" .-")`, then `s[:max_len]`. -/

/-- The path-illegal characters of `safe_filename`'s first regex. -/
def ILLEGAL_CHARS : List Char := ['\\', '/', ':', '*', '?', '"', '<', '>', '|']

/-- Character class of the first regex. -/
def isIllegal (c : Char) : Bool := ILLEGAL_CHARS.contains c

/-- ASCII whitespace matched by `\s`. -/
def isPySpace (c : Char) : Bool := c ∈ [' ', '\t', '\n', '\r', '\x0b', '\x0c']

/-- `re.sub('[class]+', r, s)`: each maximal run of characters satisfying `p`
becomes the single character `r`; the Boolean records whether the previous
character was inside a run. -/
def subRunsAux (p : Char → Bool) (r : Char) : Bool → List Char → List Char
  | _, [] => []
  | inRun, c :: cs =>
    if p c then
      if inRun then subRunsAux p r true cs else r :: subRunsAux p r true cs
    else c :: subRunsAux p r false cs

/-- Replace each maximal run of characters satisfying `p` by `r`. -/
def subRuns (p : Char → Bool) (r : Char) (l : List Char) : List Char :=
  subRunsAux p r false l

/-- The strip set of `.strip(" .-")`. -/
def isStripChar (c : Char) : Bool := c ∈ [' ', '.', '-']

/-- Python `str.strip(" .-")`: drop the characters of the strip set from both
ends. -/
def pyStrip (l : List Char) : List Char :=
  (l.dropWhile isStripChar).rdropWhile isStripChar

/-- The default `max_len` of `safe_filename`. -/
def SAFE_FILENAME_MAX_LEN : ℕ := 150

/-- `safe_filename` on the character list of the input string. -/
def safe_filename (s : List Char) (max_len : ℕ) : List Char :=
  (pyStrip (subRuns isPySpace ' ' (subRuns isIllegal '-' s))).take max_len

theorem mem_subRunsAux {p : Char → Bool} {r : Char} :
    ∀ (l : List Char) (b : Bool) (c : Char),
      c ∈ subRunsAux p r b l → c = r ∨ (c ∈ l ∧ p c = false) := by
  intro l
  induction l with
  | nil => intro b c hc; simp [subRunsAux] at hc
  | cons a as ih =>
    intro b c hc
    simp only [subRunsAux] at hc
    rcases ha : p a with _ | _
    · rw [ha] at hc
      simp only [Bool.false_eq_true, if_false] at hc
      rcases List.mem_cons.mp hc with rfl | hc'
      · exact Or.inr ⟨List.mem_cons_self _ _, ha⟩
      · rcases ih false c hc' with h | ⟨h1, h2⟩
        · exact Or.inl h
        · exact Or.inr ⟨List.mem_cons_of_mem _ h1, h2⟩
    · rw [ha] at hc
      simp only [if_true] at hc
      have step : c ∈ subRunsAux p r true as ∨ c = r := by
        cases b with
        | false =>
          rcases List.mem_cons.mp hc with rfl | hc'
          · exact Or.inr rfl
          · exact Or.inl hc'
        | true => exact Or.inl hc
      rcases step with hc' | rfl
      · rcases ih true c hc' with h | ⟨h1, h2⟩
        · exact Or.inl h
        · exact Or.inr ⟨List.mem_cons_of_mem _ h1, h2⟩
      · exact Or.inl rfl

theorem mem_subRuns {p : Char → Bool} {r : Char} {l : List Char} {c : Char}
    (hc : c ∈ subRuns p r l) : c = r ∨ (c ∈ l ∧ p c = false) :=
  mem_subRunsAux l false c hc

theorem head?_dropWhile_false {q : Char → Bool} :
    ∀ (l : List Char) (c : Char), (l.dropWhile q).head? = some c → q c = false := by
  intro l
  induction l with
  | nil => intro c hc; cases hc
  | cons a as ih =>
    intro c hc
    rw [List.dropWhile_cons] at hc
    split at hc
    · exact ih c hc
    · cases hc
      rename_i h
      exact Bool.not_eq_true _ ▸ h

theorem head?_of_prefix_eq {l x : List Char} (h : l <+: x) {c : Char}
    (hc : l.head? = some c) : x.head? = some c := by
  obtain ⟨t, rfl⟩ := h
  cases l with
  | nil => cases hc
  | cons a as => cases hc; rfl

theorem head?_take_eq {x : List Char} {n : ℕ} {c : Char}
    (hc : (x.take n).head? = some c) : x.head? = some c := by
  cases n with
  | zero => cases hc
  | succ m =>
    cases x with
    | nil => cases hc
    | cons a as => cases hc; rfl

/-- C8 counterexample: on the 155-character input `'a' * 149 + ".bbbbb"` the
output of `safe_filename` (default `max_len = 150`) ends in a dot — the
truncation runs after the strip, so a trailing dot survives. -/
theorem C8_counterexample :
    (safe_filename (List.replicate 149 'a' ++ '.' :: List.replicate 5 'b')
        SAFE_FILENAME_MAX_LEN).getLast? = some '.' := by
  decide

/-- C8 (amended): for every input, `safe_filename` returns a string with no
path-illegal character, of length at most `max_len`, with no leading dot,
dash or space; and whenever the stripped string already fits in `max_len`
(so no truncation occurs), also with no trailing dot, dash or space.
Truncation happens after stripping and can therefore expose a trailing dot,
dash or space. -/
theorem C8_safe_filename (s : List Char) (max_len : ℕ) :
    (∀ c ∈ safe_filename s max_len, isIllegal c = false) ∧
    (safe_filename s max_len).length ≤ max_len ∧
    (∀ c : Char, (safe_filename s max_len).head? = some c → isStripChar c = false) ∧
    ((pyStrip (subRuns isPySpace ' ' (subRuns isIllegal '-' s))).length ≤ max_len →
      ∀ c : Char, (safe_filename s max_len).getLast? = some c → isStripChar c = false) := by
  refine ⟨?_, ?_, ?_, ?_⟩
  · intro c hc
    have hc1 : c ∈ pyStrip (subRuns isPySpace ' ' (subRuns isIllegal '-' s)) :=
      (List.take_sublist _ _).subset hc
    have hc1' : c ∈ (subRuns isPySpace ' ' (subRuns isIllegal '-' s)).dropWhile
        isStripChar := by
      simp only [pyStrip, List.rdropWhile, List.mem_reverse] at hc1
      exact List.mem_reverse.mp ((List.dropWhile_sublist _).subset hc1)
    have hc2 : c ∈ subRuns isPySpace ' ' (subRuns isIllegal '-' s) :=
      (List.dropWhile_sublist _).subset hc1'
    rcases mem_subRuns hc2 with rfl | ⟨hc3, _⟩
    · decide
    · rcases mem_subRuns hc3 with rfl | ⟨_, h⟩
      · decide
      · exact h
  · exact List.length_take_le _ _
  · intro c hc
    have h1 : (pyStrip (subRuns isPySpace ' ' (subRuns isIllegal '-' s))).head? = some c :=
      head?_take_eq hc
    have h2 : (((subRuns isPySpace ' ' (subRuns isIllegal '-' s)).dropWhile
        isStripChar)).head? = some c :=
      head?_of_prefix_eq (List.rdropWhile_prefix _ _) h1
    exact head?_dropWhile_false _ c h2
  · intro hlen c hc
    rw [safe_filename, List.take_of_length_le hlen] at hc
    have hne : pyStrip (subRuns isPySpace ' ' (subRuns isIllegal '-' s)) ≠ [] := by
      intro h0
      rw [h0] at hc
      cases hc
    rw [List.getLast?_eq_getLast _ hne] at hc
    have hlast := List.rdropWhile_last_not isStripChar _
      (show ((subRuns isPySpace ' ' (subRuns isIllegal '-' s)).dropWhile
        isStripChar).rdropWhile isStripChar ≠ [] from hne)
    cases hc
    exact Bool.not_eq_true _ ▸ hlast

/-- Witness for the amended C8 on the input `" x?y. "`. -/
theorem C8_safe_filename_witness :
    isIllegal 'x' = false ∧
    (safe_filename (" x?y. ".data) SAFE_FILENAME_MAX_LEN).length
        ≤ SAFE_FILENAME_MAX_LEN ∧
    isStripChar 'x' = false := by
  have h := C8_safe_filename (" x?y. ".data) SAFE_FILENAME_MAX_LEN
  refine ⟨h.1 'x' (by decide), h.2.1, h.2.2.1 'x' (by decide)⟩

/-! ## Placeholder sanitisation (`report.py`, `_create_sanitized_template_copy`,
lines 92-111, and `PLACEHOLDER_REPLACEMENTS`, lines 38-40)

The source opens the template archive read-only (`"r"`), creates a fresh
temporary file, and writes every part into it: parts whose name ends in
`.xml` and whose bytes decode as UTF-8 get the replacement table applied to
their text, every other part is written back byte-for-byte; the original
file is never written to.  A part's payload is modelled as either decodable
text (`text`) or bytes that fail UTF-8 decoding (`binary`). -/

/-- The payload of one archive part. -/
inductive PartData
  | text : List Char → PartData
  | binary : List ℕ → PartData
  deriving Repr, DecidableEq

/-- One part of the template archive: its name and payload. -/
structure ZipPart where
  filename : List Char
  data : PartData
  deriving Repr, DecidableEq

/-- The fixed replacement table `PLACEHOLDER_REPLACEMENTS`. -/
def PLACEHOLDER_REPLACEMENTS : List (List Char × List Char) :=
  [("Reaction&amp;WayForword".data, "Reaction_and_WayForword".data)]

/-- Python `str.replace(pat, rep)` with explicit structural fuel (one unit per
consumed character, so `l.length` always suffices): replace the
non-overlapping occurrences of `pat` left to right.  An empty `pat` leaves
the string unchanged here; the replacement table only holds non-empty
patterns. -/
def replaceAllGo (pat rep : List Char) : ℕ → List Char → List Char
  | _, [] => []
  | 0, l => l
  | Nat.succ fuel, c :: cs =>
    if pat ≠ [] ∧ pat.isPrefixOf (c :: cs) then
      rep ++ replaceAllGo pat rep fuel (cs.drop (pat.length - 1))
    else c :: replaceAllGo pat rep fuel cs

/-- Python `str.replace(pat, rep)` on a character list. -/
def replaceAll (pat rep l : List Char) : List Char :=
  replaceAllGo pat rep l.length l

/-- Apply every entry of the replacement table in order. -/
def applyReplacements (s : List Char) : List Char :=
  PLACEHOLDER_REPLACEMENTS.foldl (fun acc pr => replaceAll pr.1 pr.2 acc) s

/-- Whether a part name ends in `.xml`. -/
def isXmlName (nm : List Char) : Bool := ".xml".data.isSuffixOf nm

/-- How the loop body transforms one part before writing it to the copy. -/
def sanitizePart (it : ZipPart) : ZipPart :=
  if isXmlName it.filename ∧ PLACEHOLDER_REPLACEMENTS ≠ [] then
    match it.data with
    | PartData.text t => ⟨it.filename, PartData.text (applyReplacements t)⟩
    | PartData.binary _ => it
  else it

/-- `_create_sanitized_template_copy`: the loop over `src.infolist()`, writing
each processed part into the fresh destination archive in order. -/
def create_sanitized_template_copy (parts : List ZipPart) : List ZipPart :=
  parts.foldl (fun acc it => acc ++ [sanitizePart it]) []

theorem foldl_append_sanitize (parts : List ZipPart) :
    ∀ acc : List ZipPart,
      parts.foldl (fun a it => a ++ [sanitizePart it]) acc
        = acc ++ parts.map sanitizePart := by
  induction parts with
  | nil => intro acc; simp
  | cons p ps ih =>
    intro acc
    simp only [List.foldl_cons, List.map_cons, ih]
    simp

theorem sanitizePart_filename (it : ZipPart) :
    (sanitizePart it).filename = it.filename := by
  rcases it with ⟨nm, d⟩
  rcases d with t | b <;> simp only [sanitizePart] <;> split <;> rfl

/-- C9: the sanitisation pass returns a fresh archive with the same parts in
the same order, in which every `.xml` part that decodes as UTF-8 has the
replacement table applied to its text — in particular
`Reaction&amp;WayForword` is rewritten to `Reaction_and_WayForword` — while
every non-`.xml` part and every part that fails UTF-8 decoding is copied
byte-for-byte unchanged; the original template value is not modified. -/
theorem C9_sanitized_copy (parts : List ZipPart) :
    create_sanitized_template_copy parts = parts.map sanitizePart ∧
    (create_sanitized_template_copy parts).length = parts.length ∧
    (create_sanitized_template_copy parts).map ZipPart.filename
      = parts.map ZipPart.filename ∧
    (∀ it : ZipPart, ∀ t : List Char,
      isXmlName it.filename = true → it.data = PartData.text t →
        sanitizePart it = ⟨it.filename, PartData.text (applyReplacements t)⟩) ∧
    (∀ it : ZipPart, isXmlName it.filename = false → sanitizePart it = it) ∧
    (∀ it : ZipPart, ∀ b : List ℕ, it.data = PartData.binary b →
        sanitizePart it = it) ∧
    applyReplacements ("A Reaction&amp;WayForword B".data)
      = ("A Reaction_and_WayForword B".data) := by
  have hmap : create_sanitized_template_copy parts = parts.map sanitizePart := by
    simpa using foldl_append_sanitize parts []
  refine ⟨hmap, by rw [hmap]; simp, ?_, ?_, ?_, ?_, by decide⟩
  · rw [hmap, List.map_map]
    exact List.map_congr_left fun a _ => sanitizePart_filename a
  · intro it t hxml hdata
    rcases it with ⟨nm, d⟩
    cases hdata
    simp [sanitizePart, hxml, PLACEHOLDER_REPLACEMENTS]
  · intro it hxml
    simp [sanitizePart, hxml]
  · intro it b hdata
    rcases it with ⟨nm, d⟩
    cases hdata
    rcases hxml : isXmlName nm with _ | _ <;> simp [sanitizePart, hxml]

/-- Witness for C9 on concrete parts: one textual `.xml` part, one binary
image part. -/
theorem C9_sanitized_copy_witness :
    sanitizePart ⟨"word/document.xml".data,
        PartData.text ("A Reaction&amp;WayForword B".data)⟩
      = ⟨"word/document.xml".data,
          PartData.text (applyReplacements ("A Reaction&amp;WayForword B".data))⟩ ∧
    sanitizePart ⟨"word/media/image1.png".data, PartData.binary [137, 80, 78, 71]⟩
      = ⟨"word/media/image1.png".data, PartData.binary [137, 80, 78, 71]⟩ := by
  have h := C9_sanitized_copy []
  exact ⟨h.2.2.2.1 _ _ (by decide) rfl, h.2.2.2.2.2.1 _ [137, 80, 78, 71] rfl⟩

end IbcReport
